import Mathlib

/-!
Verification of the CHRplunk core format engines against their design notes.

The development shallowly embeds the two leaf components of the repository:

* `Chrplunk` — the CHR tile codec (`chrplunk/chr_format.py`, class `CHRFile`):
  packing and unpacking of 8×8, 2-bit-per-pixel NES tiles stored as two
  8-byte bit planes, plus palette-based rasterization of a tile.

* `NesRom` — the iNES ROM container parser (`chrplunk/nes_rom.py`, class
  `NESRom`): header validation, trainer skipping, PRG/CHR region slicing
  and CHR bank extraction.

Byte buffers are modelled as `List Nat` (each element one byte value);
Python's in-place bytearray writes become `List.set`, sequential file reads
become `take`/`drop`, and raised exceptions become `Except` errors.
Python's signed indexing (negative indices counting from the end of the
buffer) is modelled explicitly by `Chrplunk.pyGet?`.
-/

namespace Chrplunk

/-- Python-style list read `data[i]` for a signed index: a nonnegative index
reads from the front, a negative index `i` reads `data[len + i]`, and any
out-of-bounds access (`IndexError` in Python) yields `none`. -/
def pyGet? (l : List Nat) (i : Int) : Option Nat :=
  if 0 ≤ i then l[i.toNat]?
  else if 0 ≤ i + l.length then l[(i + l.length).toNat]? else none

/-- The all-zero 8×8 tile `[[0] * 8 for _ in range(8)]` returned by
`CHRFile.get_tile` for an out-of-range tile index. -/
def zeroTile : List (List Nat) := List.replicate 8 (List.replicate 8 0)

/-- One row of `CHRFile.get_tile`'s inner loop: recover the eight 2-bit color
indices of a row from its low-plane byte and high-plane byte.  For column
`x`, `bit = 7 - x` and the color is `(high_bit <<< 1) ||| low_bit`. -/
def decodeRow (low high : Nat) : List Nat :=
  (List.range 8).map fun x =>
    (((high >>> (7 - x)) &&& 1) <<< 1) ||| ((low >>> (7 - x)) &&& 1)

/-- Read and decode row `y` of the tile starting at byte `offset`:
`low = data[offset + y]`, `high = data[offset + y + 8]` (Python indexing). -/
def readRow (data : List Nat) (offset : Int) (y : Nat) : Option (List Nat) := do
  let low ← pyGet? data (offset + y)
  let high ← pyGet? data (offset + y + 8)
  some (decodeRow low high)

/-- The row-collection loop of `CHRFile.get_tile`: decode each row index in
`ys`, failing (like a Python `IndexError`) as soon as one read fails. -/
def collectRows (data : List Nat) (offset : Int) : List Nat → Option (List (List Nat))
  | [] => some []
  | y :: ys => do
    let r ← readRow data offset y
    let rs ← collectRows data offset ys
    some (r :: rs)

/-- `CHRFile.get_tile`: extract tile `tile_index` as an 8×8 grid of color
indices.  If `tile_index >= tile_count` (with `tile_count = len(data) // 16`)
the all-zero tile is returned; otherwise the 16 bytes starting at
`tile_index * 16` are decoded plane by plane. -/
def get_tile (data : List Nat) (tile_index : Int) : Option (List (List Nat)) :=
  if tile_index ≥ ((data.length / 16 : Nat) : Int) then some zeroTile
  else collectRows data (tile_index * 16) (List.range 8)

/-- The per-row encoding loop of `CHRFile.set_tile`: build the (low byte,
high byte) pair of one row by OR-ing, for each column `x`, the low and high
bits of the color index shifted to position `bit = 7 - x`. -/
def encodeRow (row : List Nat) : Nat × Nat :=
  (List.range 8).foldl
    (fun p x =>
      let color := row.getD x 0
      (p.1 ||| ((color &&& 1) <<< (7 - x)),
       p.2 ||| (((color >>> 1) &&& 1) <<< (7 - x))))
    (0, 0)

/-- The write loop of `CHRFile.set_tile`: for each row index `y` in `ys`,
store the row's low byte at `offset + y` and its high byte at
`offset + y + 8`. -/
def writeRows (offset : Nat) (tile_data : List (List Nat)) (d : List Nat)
    (ys : List Nat) : List Nat :=
  ys.foldl
    (fun d y =>
      (d.set (offset + y) (encodeRow (tile_data.getD y [])).1).set (offset + y + 8)
        (encodeRow (tile_data.getD y [])).2)
    d

/-- `CHRFile.set_tile`: write an 8×8 grid of color indices as tile
`tile_index`.  If `tile_index >= tile_count` the buffer is first extended
with zero bytes to `(tile_index + 1) * 16` bytes; then the 16 bytes starting
at `tile_index * 16` are overwritten with the two bit planes. -/
def set_tile (data : List Nat) (tile_index : Nat) (tile_data : List (List Nat)) :
    List Nat :=
  let grown :=
    if tile_index ≥ data.length / 16 then
      data ++ List.replicate ((tile_index + 1) * 16 - data.length) 0
    else data
  writeRows (tile_index * 16) tile_data grown (List.range 8)

/-- A well-formed tile: an 8×8 grid whose 64 entries all lie in `[0, 3]`. -/
def wfTile (t : List (List Nat)) : Prop :=
  t.length = 8 ∧ ∀ r ∈ t, r.length = 8 ∧ ∀ v ∈ r, v < 4

instance wfTile.instDecidable (t : List (List Nat)) : Decidable (wfTile t) := by
  unfold wfTile
  exact inferInstance

/-- Decoding of the 16-byte window starting at (nonnegative) byte offset
`off`: row `y` is decoded from `data[off + y]` (low plane) and
`data[off + y + 8]` (high plane), missing bytes reading as `0`. -/
def decodeAt (data : List Nat) (off : Nat) : List (List Nat) :=
  (List.range 8).map fun y =>
    decodeRow (data.getD (off + y) 0) (data.getD (off + y + 8) 0)

/-- The three RGB bytes appended to the pixel buffer for one rendered pixel
(`pixels.extend(color)` in the source). -/
def colorBytes (c : Nat × Nat × Nat) : List Nat := [c.1, c.2.1, c.2.2]

/-- The palette lookup of `CHRFile.render_tile_to_pixbuf`:
`palette[color_idx % len(palette)]` for the tile pixel at row `y`,
column `x`. -/
def pixelColor (tile : List (List Nat)) (palette : List (Nat × Nat × Nat))
    (y x : Nat) : Nat × Nat × Nat :=
  palette.getD ((tile.getD y []).getD x 0 % palette.length) (0, 0, 0)

/-- The pixel-generation part of `CHRFile.render_tile_to_pixbuf` (the
construction of the RGB byte list handed to the pixbuf): decode the tile,
then for each tile row (replicated `scale` times vertically) and each tile
column (replicated `scale` times horizontally) emit the three bytes of the
looked-up palette color.  An empty palette makes Python's
`color_idx % len(palette)` raise `ZeroDivisionError`; this is modelled as
`none`. -/
def render_tile_pixels (data : List Nat) (tile_index : Int) (scale : Nat)
    (palette : List (Nat × Nat × Nat)) : Option (List Nat) :=
  (get_tile data tile_index).bind fun tile =>
  if palette.length = 0 then none
  else
    some ((List.range 8).flatMap fun y =>
      (List.range scale).flatMap fun _ =>
        (List.range 8).flatMap fun x =>
          (List.range scale).flatMap fun _ =>
            colorBytes (pixelColor tile palette y x))

/-- Modelled from the spec: the render output described positionally — an
`(8·scale) × (8·scale)` RGB24 grid, row-major, whose pixel at row `ry` and
column `cx` is `palette[tile[ry / scale][cx / scale] mod len(palette)]`. -/
def renderSpecPixels (tile : List (List Nat)) (scale : Nat)
    (palette : List (Nat × Nat × Nat)) : List Nat :=
  (List.range (8 * scale)).flatMap fun ry =>
    (List.range (8 * scale)).flatMap fun cx =>
      colorBytes (pixelColor tile palette (ry / scale) (cx / scale))

end Chrplunk

namespace NesRom

/-- Error taxonomy of the ROM container: each constructor corresponds to one
`raise` site in `chrplunk/nes_rom.py` (the first five are `NESRomError`s of
`NESRom._parse`, carrying the expected/actual counts where the source
message reports them; `invalidBankIndex` is the `ValueError` of
`NESRom.get_chr_bank`). -/
inductive NESRomError where
  | truncatedHeader
  | badMagic
  | incompleteTrainer
  | incompletePrg (expected got : Nat)
  | incompleteChr (expected got : Nat)
  | invalidBankIndex (index : Int)
  deriving Repr, DecidableEq

/-- The parsed state of a `NESRom` object: header bytes, region sizes,
trainer flag, and the extracted 8 KiB CHR banks. -/
structure NESRom where
  header : List Nat
  prg_rom_size : Nat
  chr_rom_size : Nat
  has_trainer : Bool
  chr_rom_banks : List (List Nat)
  deriving Repr, DecidableEq

/-- The 4-byte iNES magic `b'NES\x1a'`. -/
def INES_MAGIC : List Nat := [78, 69, 83, 26]

/-- `NESRom._parse` over an in-memory byte stream: sequential `f.read(n)`
calls become `take`/`drop` at a running offset.  Reads and validates the
16-byte header, skips the optional 512-byte trainer, consumes the PRG
region, then slices the CHR region into 8192-byte banks (an empty list of
banks in the `chr_rom_size = 0` CHR-RAM case). -/
def parse (input : List Nat) : Except NESRomError NESRom :=
  let header := input.take 16
  if header.length < 16 then .error .truncatedHeader
  else if header.take 4 ≠ INES_MAGIC then .error .badMagic
  else
    let prg_rom_banks := header.getD 4 0
    let chr_rom_banks := header.getD 5 0
    let flags6 := header.getD 6 0
    let prg_rom_size := prg_rom_banks * 16384
    let chr_rom_size := chr_rom_banks * 8192
    let has_trainer := flags6 &&& 0x04 ≠ 0
    let afterHeader := input.drop 16
    if has_trainer ∧ (afterHeader.take 512).length < 512 then
      .error .incompleteTrainer
    else
      let afterTrainer := if has_trainer then afterHeader.drop 512 else afterHeader
      let prg_rom := afterTrainer.take prg_rom_size
      if prg_rom.length < prg_rom_size then
        .error (.incompletePrg prg_rom_size prg_rom.length)
      else
        let afterPrg := afterTrainer.drop prg_rom_size
        if 0 < chr_rom_size then
          let chr_rom := afterPrg.take chr_rom_size
          if chr_rom.length < chr_rom_size then
            .error (.incompleteChr chr_rom_size chr_rom.length)
          else
            .ok { header := header, prg_rom_size := prg_rom_size,
                  chr_rom_size := chr_rom_size, has_trainer := has_trainer,
                  chr_rom_banks := (List.range chr_rom_banks).map
                    fun i => (chr_rom.drop (i * 8192)).take 8192 }
        else
          .ok { header := header, prg_rom_size := prg_rom_size,
                chr_rom_size := chr_rom_size, has_trainer := has_trainer,
                chr_rom_banks := [] }

/-- `NESRom.get_chr_bank_count`. -/
def NESRom.get_chr_bank_count (rom : NESRom) : Nat := rom.chr_rom_banks.length

/-- `NESRom.get_chr_bank`: strict bounds check — a negative index or an
index at or beyond the bank count raises (`ValueError`), with no fallback
value. -/
def NESRom.get_chr_bank (rom : NESRom) (bank_index : Int) :
    Except NESRomError (List Nat) :=
  if bank_index < 0 ∨ bank_index ≥ (rom.get_chr_bank_count : Int) then
    .error (.invalidBankIndex bank_index)
  else .ok (rom.chr_rom_banks.getD bank_index.toNat [])

/-- `NESRom.get_all_chr_data`. -/
def NESRom.get_all_chr_data (rom : NESRom) : List Nat :=
  rom.chr_rom_banks.flatten

/-- The dictionary returned by `NESRom.get_rom_info`. -/
structure RomInfo where
  prg_rom_size : Nat
  chr_rom_size : Nat
  prg_banks : Nat
  chr_banks : Nat
  has_trainer : Bool
  mapper : Nat
  mirroring : String
  deriving Repr, DecidableEq

/-- `NESRom.get_rom_info`: mapper id from the flag nibbles of header bytes
6 and 7, mirroring from bit 0 of byte 6. -/
def NESRom.get_rom_info (rom : NESRom) : RomInfo where
  prg_rom_size := rom.prg_rom_size
  chr_rom_size := rom.chr_rom_size
  prg_banks := rom.prg_rom_size / 16384
  chr_banks := rom.chr_rom_banks.length
  has_trainer := rom.has_trainer
  mapper := (rom.header.getD 6 0 >>> 4) ||| (rom.header.getD 7 0 &&& 0xF0)
  mirroring := if rom.header.getD 6 0 &&& 0x01 ≠ 0 then "Vertical" else "Horizontal"

deriving instance DecidableEq for Except

end NesRom

namespace Chrplunk

theorem writeRows_length (offset : Nat) (T : List (List Nat)) (ys : List Nat) :
    ∀ d : List Nat, (writeRows offset T d ys).length = d.length := by
  induction ys with
  | nil => intro d; rfl
  | cons y ys ih =>
    intro d
    rw [writeRows, List.foldl_cons]
    rw [show List.foldl _ _ ys = writeRows offset T
      ((d.set (offset + y) (encodeRow (T.getD y [])).1).set (offset + y + 8)
        (encodeRow (T.getD y [])).2) ys from rfl]
    rw [ih]
    simp

theorem writeRows_frame (offset : Nat) (T : List (List Nat)) (ys : List Nat)
    (p : Nat) :
    ∀ d : List Nat, (∀ y ∈ ys, p ≠ offset + y ∧ p ≠ offset + y + 8) →
      (writeRows offset T d ys)[p]? = d[p]? := by
  induction ys with
  | nil => intro d _; rfl
  | cons y ys ih =>
    intro d hmem
    rw [writeRows, List.foldl_cons]
    rw [show List.foldl _ _ ys = writeRows offset T
      ((d.set (offset + y) (encodeRow (T.getD y [])).1).set (offset + y + 8)
        (encodeRow (T.getD y [])).2) ys from rfl]
    rw [ih _ fun z hz => hmem z (List.mem_cons_of_mem _ hz)]
    have h1 := (hmem y (List.mem_cons_self y ys)).1
    have h2 := (hmem y (List.mem_cons_self y ys)).2
    rw [List.getElem?_set_ne (Ne.symm h2), List.getElem?_set_ne (Ne.symm h1)]

theorem writeRows_read (offset : Nat) (T : List (List Nat)) (d : List Nat)
    (hlen : offset + 16 ≤ d.length) (y : Nat) (hy : y < 8) :
    (writeRows offset T d (List.range 8))[offset + y]?
        = some (encodeRow (T.getD y [])).1 ∧
      (writeRows offset T d (List.range 8))[offset + y + 8]?
        = some (encodeRow (T.getD y [])).2 := by
  have hsplit : List.range 8 = List.range (y + 1) ++ (List.range (7 - y)).map ((y + 1) + ·) := by
    rw [← List.range_add]
    congr 1
    omega
  have hfold : writeRows offset T d (List.range 8)
      = writeRows offset T (writeRows offset T d (List.range (y + 1)))
          ((List.range (7 - y)).map ((y + 1) + ·)) := by
    rw [hsplit, writeRows, List.foldl_append]; rfl
  have hstep : writeRows offset T d (List.range (y + 1))
      = ((writeRows offset T d (List.range y)).set (offset + y)
          (encodeRow (T.getD y [])).1).set (offset + y + 8)
          (encodeRow (T.getD y [])).2 := by
    rw [List.range_succ, writeRows, List.foldl_append]; rfl
  have hllen : (writeRows offset T d (List.range y)).length = d.length :=
    writeRows_length _ _ _ _
  rw [hfold]
  constructor
  · rw [writeRows_frame]
    · rw [hstep, List.getElem?_set_ne (by omega), List.getElem?_set_self (by simp [hllen]; omega)]
    · intro z hz
      simp only [List.mem_map, List.mem_range] at hz
      obtain ⟨w, hw, rfl⟩ := hz
      omega
  · rw [writeRows_frame]
    · rw [hstep, List.getElem?_set_self (by simp [hllen]; omega)]
    · intro z hz
      simp only [List.mem_map, List.mem_range] at hz
      obtain ⟨w, hw, rfl⟩ := hz
      omega

theorem orchain_extract_bool : ∀ (b0 b1 b2 b3 b4 b5 b6 b7 : Bool) (x : Fin 8),
    ((0 ||| b0.toNat <<< 7 ||| b1.toNat <<< 6 ||| b2.toNat <<< 5 ||| b3.toNat <<< 4 |||
        b4.toNat <<< 3 ||| b5.toNat <<< 2 ||| b6.toNat <<< 1 ||| b7.toNat <<< 0) >>>
      (7 - x.val)) &&& 1
      = [b0.toNat, b1.toNat, b2.toNat, b3.toNat,
         b4.toNat, b5.toNat, b6.toNat, b7.toNat].getD x.val 0 := by decide

theorem toNat_decide_eq (n : Nat) (h : n ≤ 1) : (decide (n = 1)).toNat = n := by
  interval_cases n <;> rfl

theorem orchain_extract {l0 l1 l2 l3 l4 l5 l6 l7 : Nat}
    (h0 : l0 ≤ 1) (h1 : l1 ≤ 1) (h2 : l2 ≤ 1) (h3 : l3 ≤ 1)
    (h4 : l4 ≤ 1) (h5 : l5 ≤ 1) (h6 : l6 ≤ 1) (h7 : l7 ≤ 1)
    {x : Nat} (hx : x < 8) :
    ((0 ||| l0 <<< 7 ||| l1 <<< 6 ||| l2 <<< 5 ||| l3 <<< 4 |||
        l4 <<< 3 ||| l5 <<< 2 ||| l6 <<< 1 ||| l7 <<< 0) >>> (7 - x)) &&& 1
      = [l0, l1, l2, l3, l4, l5, l6, l7].getD x 0 := by
  rw [← toNat_decide_eq l0 h0, ← toNat_decide_eq l1 h1, ← toNat_decide_eq l2 h2,
    ← toNat_decide_eq l3 h3, ← toNat_decide_eq l4 h4, ← toNat_decide_eq l5 h5,
    ← toNat_decide_eq l6 h6, ← toNat_decide_eq l7 h7]
  exact orchain_extract_bool _ _ _ _ _ _ _ _ ⟨x, hx⟩

theorem list8_exists {α : Type _} (r : List α) (h8 : r.length = 8) :
    ∃ a b c d e f g h, r = [a, b, c, d, e, f, g, h] := by
  rcases r with _ | ⟨a, r⟩; · simp at h8
  rcases r with _ | ⟨b, r⟩; · simp at h8
  rcases r with _ | ⟨c, r⟩; · simp at h8
  rcases r with _ | ⟨d, r⟩; · simp at h8
  rcases r with _ | ⟨e, r⟩; · simp at h8
  rcases r with _ | ⟨f, r⟩; · simp at h8
  rcases r with _ | ⟨g, r⟩; · simp at h8
  rcases r with _ | ⟨h, r⟩; · simp at h8
  rcases r with _ | ⟨i, r⟩
  · exact ⟨a, b, c, d, e, f, g, h, rfl⟩
  · simp at h8

theorem getD_fn_map (p0 p1 p2 p3 p4 p5 p6 p7 : Nat) (x : Nat) (hx : x < 8)
    (f : Nat → Nat) :
    [f p0, f p1, f p2, f p3, f p4, f p5, f p6, f p7].getD x 0
      = f ([p0, p1, p2, p3, p4, p5, p6, p7].getD x 0) := by
  interval_cases x <;> rfl

theorem encodeRow_bits (p : List Nat) (hp8 : p.length = 8) (x : Nat) (hx : x < 8) :
    ((encodeRow p).1 >>> (7 - x)) &&& 1 = (p.getD x 0) &&& 1 ∧
    ((encodeRow p).2 >>> (7 - x)) &&& 1 = ((p.getD x 0) >>> 1) &&& 1 := by
  obtain ⟨p0, p1, p2, p3, p4, p5, p6, p7, rfl⟩ := list8_exists p hp8
  constructor
  · rw [show (encodeRow [p0, p1, p2, p3, p4, p5, p6, p7]).1
        = (0 ||| (p0 &&& 1) <<< 7 ||| (p1 &&& 1) <<< 6 ||| (p2 &&& 1) <<< 5 |||
           (p3 &&& 1) <<< 4 ||| (p4 &&& 1) <<< 3 ||| (p5 &&& 1) <<< 2 |||
           (p6 &&& 1) <<< 1 ||| (p7 &&& 1) <<< 0) from rfl,
      orchain_extract Nat.and_le_right Nat.and_le_right Nat.and_le_right
        Nat.and_le_right Nat.and_le_right Nat.and_le_right Nat.and_le_right
        Nat.and_le_right hx]
    exact getD_fn_map p0 p1 p2 p3 p4 p5 p6 p7 x hx (· &&& 1)
  · rw [show (encodeRow [p0, p1, p2, p3, p4, p5, p6, p7]).2
        = (0 ||| ((p0 >>> 1) &&& 1) <<< 7 ||| ((p1 >>> 1) &&& 1) <<< 6 |||
           ((p2 >>> 1) &&& 1) <<< 5 ||| ((p3 >>> 1) &&& 1) <<< 4 |||
           ((p4 >>> 1) &&& 1) <<< 3 ||| ((p5 >>> 1) &&& 1) <<< 2 |||
           ((p6 >>> 1) &&& 1) <<< 1 ||| ((p7 >>> 1) &&& 1) <<< 0) from rfl,
      orchain_extract Nat.and_le_right Nat.and_le_right Nat.and_le_right
        Nat.and_le_right Nat.and_le_right Nat.and_le_right Nat.and_le_right
        Nat.and_le_right hx]
    exact getD_fn_map p0 p1 p2 p3 p4 p5 p6 p7 x hx (fun v => (v >>> 1) &&& 1)

theorem pixel_recon (p : Nat) (h : p < 4) :
    (((p >>> 1) &&& 1) <<< 1) ||| (p &&& 1) = p := by
  interval_cases p <;> rfl

theorem decodeRow_encodeRow (r : List Nat) (h8 : r.length = 8)
    (h4 : ∀ v ∈ r, v < 4) :
    decodeRow (encodeRow r).1 (encodeRow r).2 = r := by
  apply List.ext_getElem
  · simp [decodeRow, h8]
  · intro i hi hi'
    have hi8 : i < 8 := by simpa [h8] using hi'
    have hb := encodeRow_bits r h8 i hi8
    simp only [decodeRow, List.getElem_map, List.getElem_range]
    rw [hb.1, hb.2]
    have hgetD : r.getD i 0 = r[i] := by
      simp [List.getD_eq_getElem?_getD, List.getElem?_eq_getElem hi']
    rw [hgetD]
    exact pixel_recon r[i] (h4 _ (List.getElem_mem hi'))

theorem pyGet?_coe (l : List Nat) (n : Nat) : pyGet? l (n : Int) = l[n]? := by
  simp [pyGet?]

theorem collectRows_eq_map (data : List Nat) (offset : Int) (ys : List Nat)
    (g : Nat → List Nat) (h : ∀ y ∈ ys, readRow data offset y = some (g y)) :
    collectRows data offset ys = some (ys.map g) := by
  induction ys with
  | nil => rfl
  | cons y ys ih =>
    rw [collectRows, h y (List.mem_cons_self y ys),
      ih fun z hz => h z (List.mem_cons_of_mem _ hz)]
    rfl

theorem set_tile_eq_writeRows (data : List Nat) (i : Nat) (T : List (List Nat)) :
    set_tile data i T
      = writeRows (i * 16) T
          (if i ≥ data.length / 16 then
            data ++ List.replicate ((i + 1) * 16 - data.length) 0
          else data)
          (List.range 8) := rfl

theorem grown_length_ge (data : List Nat) (i : Nat) :
    i * 16 + 16 ≤ (if i ≥ data.length / 16 then
      data ++ List.replicate ((i + 1) * 16 - data.length) 0 else data).length := by
  split
  · next hcase => simp; omega
  · next hcase => omega

theorem set_tile_length_ge (data : List Nat) (i : Nat) (T : List (List Nat)) :
    i * 16 + 16 ≤ (set_tile data i T).length := by
  rw [set_tile_eq_writeRows, writeRows_length]
  exact grown_length_ge data i

/-- Core round-trip: after `set_tile i T`, reading tile `i` back returns `T`. -/
theorem get_set_tile (data : List Nat) (i : Nat) (T : List (List Nat))
    (hT : wfTile T) : get_tile (set_tile data i T) (i : Int) = some T := by
  obtain ⟨hT8, hTrows⟩ := hT
  have hlen := set_tile_length_ge data i T
  rw [get_tile, if_neg]
  · rw [show ((i : Int) * 16) = ((i * 16 : Nat) : Int) by push_cast; ring]
    rw [collectRows_eq_map _ _ _
      (fun y => decodeRow (encodeRow (T.getD y [])).1 (encodeRow (T.getD y [])).2)]
    · congr 1
      apply List.ext_getElem
      · simp [hT8]
      · intro k hk hk2
        have hk8 : k < 8 := by simpa using hk
        have hkT : k < T.length := by omega
        simp only [List.getElem_map, List.getElem_range]
        have hrow : T.getD k [] = T[k] := by
          simp [List.getD_eq_getElem?_getD, List.getElem?_eq_getElem hkT]
        rw [hrow]
        have hmem : T[k] ∈ T := List.getElem_mem hkT
        exact decodeRow_encodeRow _ (hTrows _ hmem).1 (hTrows _ hmem).2
    · intro y hy
      have hy8 : y < 8 := by simpa using hy
      have hread := writeRows_read (i * 16) T
        (if i ≥ data.length / 16 then
          data ++ List.replicate ((i + 1) * 16 - data.length) 0 else data)
        (grown_length_ge data i) y hy8
      rw [← set_tile_eq_writeRows] at hread
      rw [readRow,
        show ((i * 16 : Nat) : Int) + (y : Int) = ((i * 16 + y : Nat) : Int) by
          push_cast; ring,
        pyGet?_coe,
        show ((i * 16 + y : Nat) : Int) + (8 : Int) = ((i * 16 + y + 8 : Nat) : Int) by
          push_cast; ring,
        pyGet?_coe, hread.1, hread.2]
      rfl
  · rw [ge_iff_le, not_le]
    have h1 : i < (set_tile data i T).length / 16 := by omega
    exact_mod_cast h1

theorem getElem?_eq_some_getD (l : List Nat) (n : Nat) (h : n < l.length) :
    l[n]? = some (l.getD n 0) := by
  simp [List.getD_eq_getElem?_getD, List.getElem?_eq_getElem h]

/-- In-range decode: for `0 ≤ j < tile_count`, `get_tile` decodes the
16-byte window at offset `j * 16`. -/
theorem get_tile_eq_decodeAt (data : List Nat) (j : Nat)
    (hj : j < data.length / 16) :
    get_tile data (j : Int) = some (decodeAt data (j * 16)) := by
  rw [get_tile, if_neg]
  · rw [show ((j : Int) * 16) = ((j * 16 : Nat) : Int) by push_cast; ring]
    rw [collectRows_eq_map _ _ _
      (fun y => decodeRow (data.getD (j * 16 + y) 0) (data.getD (j * 16 + y + 8) 0))]
    · rfl
    · intro y hy
      have hy8 : y < 8 := by simpa using hy
      have hb : j * 16 + y + 8 < data.length := by omega
      have hb' : j * 16 + y < data.length := by omega
      rw [readRow,
        show ((j * 16 : Nat) : Int) + (y : Int) = ((j * 16 + y : Nat) : Int) by
          push_cast; ring,
        pyGet?_coe,
        show ((j * 16 + y : Nat) : Int) + (8 : Int) = ((j * 16 + y + 8 : Nat) : Int) by
          push_cast; ring,
        pyGet?_coe, getElem?_eq_some_getD _ _ hb', getElem?_eq_some_getD _ _ hb]
      rfl
  · rw [ge_iff_le, not_le]
    exact_mod_cast hj

/-- Negative-index decode: the bounds check of `get_tile` is one-sided, so a
negative index within `[-tile_count, 0)` decodes the window that starts
`16 * |i|` bytes before the end of the buffer. -/
theorem get_tile_neg (data : List Nat) (i : Int) (hneg : i < 0)
    (hge : -((data.length / 16 : Nat) : Int) ≤ i) :
    get_tile data i
      = some (decodeAt data (((data.length : Int) + 16 * i).toNat)) := by
  have hlen : 16 * (data.length / 16) ≤ data.length := Nat.mul_div_le _ _ |>.trans_eq rfl
  have hcount : (0:Int) ≤ ((data.length / 16 : Nat) : Int) := by positivity
  rw [get_tile, if_neg]
  · rw [collectRows_eq_map _ _ _
      (fun y => decodeRow
        (data.getD ((((data.length : Int) + 16 * i).toNat) + y) 0)
        (data.getD ((((data.length : Int) + 16 * i).toNat) + y + 8) 0))]
    · rfl
    · intro y hy
      have hy8 : y < 8 := by simpa using hy
      have hdiv : 16 * (data.length / 16) ≤ data.length := Nat.mul_div_le _ _
      have key : (0:Int) ≤ (data.length : Int) + 16 * i := by
        have : ((data.length / 16 : Nat) : Int) * 16 ≤ (data.length : Int) := by
          exact_mod_cast Nat.div_mul_le_self data.length 16
        omega
      rw [readRow, pyGet?, if_neg (by omega), if_pos (by omega),
        pyGet?, if_neg (by omega), if_pos (by omega)]
      rw [show ((i * 16 + (y : Int)) + (data.length : Int)).toNat
            = ((data.length : Int) + 16 * i).toNat + y by omega,
        show ((i * 16 + (y : Int) + 8) + (data.length : Int)).toNat
            = ((data.length : Int) + 16 * i).toNat + y + 8 by omega]
      have hb' : ((data.length : Int) + 16 * i).toNat + y < data.length := by omega
      have hb : ((data.length : Int) + 16 * i).toNat + y + 8 < data.length := by
        have hd16 : ((data.length / 16 : Nat) : Int) * 16 ≤ (data.length : Int) := by
          exact_mod_cast Nat.div_mul_le_self data.length 16
        have h1 : 1 ≤ data.length / 16 := by omega
        omega
      rw [getElem?_eq_some_getD _ _ hb', getElem?_eq_some_getD _ _ hb]
      rfl
  · omega

theorem set_tile_length_of_ge (data : List Nat) (i : Nat) (T : List (List Nat))
    (h : data.length / 16 ≤ i) :
    (set_tile data i T).length = (i + 1) * 16 := by
  rw [set_tile_eq_writeRows, writeRows_length, if_pos (by omega)]
  simp
  omega

theorem set_tile_frame_lt (data : List Nat) (i : Nat) (T : List (List Nat))
    (p : Nat) (hp : p < i * 16) :
    (set_tile data i T)[p]?
      = (if i ≥ data.length / 16 then
          data ++ List.replicate ((i + 1) * 16 - data.length) 0 else data)[p]? := by
  rw [set_tile_eq_writeRows, writeRows_frame]
  intro y hy
  have : y < 8 := by simpa using hy
  constructor <;> omega

theorem decodeRow_zero : decodeRow 0 0 = List.replicate 8 0 := by decide

/-- Growth-on-write for well-formed (16-aligned) buffers. -/
theorem set_tile_grow (data : List Nat) (M N : Nat) (T : List (List Nat))
    (hM : data.length = 16 * M) (hMN : M ≤ N) (hT : wfTile T) :
    (set_tile data N T).length = 16 * (N + 1) ∧
    (set_tile data N T).take data.length = data ∧
    (∀ j : Nat, j < M → get_tile (set_tile data N T) (j : Int) = get_tile data (j : Int)) ∧
    (∀ j : Nat, M ≤ j → j < N → get_tile (set_tile data N T) (j : Int) = some zeroTile) ∧
    get_tile (set_tile data N T) (N : Int) = some T := by
  have hcond : data.length / 16 ≤ N := by omega
  have hd'len : (set_tile data N T).length = (N + 1) * 16 :=
    set_tile_length_of_ge data N T hcond
  have hbyte : ∀ p, p < 16 * N → (set_tile data N T)[p]?
      = (data ++ List.replicate ((N + 1) * 16 - data.length) 0)[p]? := by
    intro p hp
    rw [set_tile_frame_lt data N T p (by omega), if_pos (by omega)]
  have hbD : ∀ p, p < 16 * M → (set_tile data N T).getD p 0 = data.getD p 0 := by
    intro p hp
    rw [List.getD_eq_getElem?_getD, List.getD_eq_getElem?_getD, hbyte p (by omega),
      List.getElem?_append_left (by omega)]
  have hbZ : ∀ p, 16 * M ≤ p → p < 16 * N → (set_tile data N T).getD p 0 = 0 := by
    intro p h1 h2
    rw [List.getD_eq_getElem?_getD, hbyte p h2,
      List.getElem?_append_right (by omega),
      List.getElem?_replicate_of_lt (by omega)]
    rfl
  refine ⟨by rw [hd'len]; ring, ?_, ?_, ?_, get_set_tile data N T hT⟩
  · apply List.ext_getElem?
    intro p
    rw [List.getElem?_take]
    split
    · next hp =>
      rw [hbyte p (by omega), List.getElem?_append_left (by omega)]
    · next hp =>
      rw [List.getElem?_eq_none (by omega)]
  · intro j hj
    rw [get_tile_eq_decodeAt _ j (by rw [hd'len]; omega),
      get_tile_eq_decodeAt _ j (by omega)]
    apply congrArg
    apply List.map_congr_left
    intro y hy
    have hy8 : y < 8 := by simpa using hy
    rw [hbD (j * 16 + y) (by omega), hbD (j * 16 + y + 8) (by omega)]
  · intro j hjM hjN
    rw [get_tile_eq_decodeAt _ j (by rw [hd'len]; omega)]
    apply congrArg
    apply List.ext_getElem
    · simp [decodeAt, zeroTile]
    · intro k hk hk'
      have hk8 : k < 8 := by simpa [decodeAt] using hk
      simp only [decodeAt, List.getElem_map, List.getElem_range, zeroTile,
        List.getElem_replicate]
      rw [hbZ (j * 16 + k) (by omega) (by omega),
        hbZ (j * 16 + k + 8) (by omega) (by omega), decodeRow_zero]

theorem getD_replicate_lt {X : List Nat} (k : Nat) (hk : k < 8) :
    (List.replicate 8 X).getD k [] = X := by
  rw [List.getD_eq_getElem?_getD, List.getElem?_replicate_of_lt (by omega)]
  rfl

theorem set_tile_read (data : List Nat) (i : Nat) (T : List (List Nat))
    (y : Nat) (hy : y < 8) :
    (set_tile data i T).getD (i * 16 + y) 0 = (encodeRow (T.getD y [])).1 ∧
    (set_tile data i T).getD (i * 16 + y + 8) 0 = (encodeRow (T.getD y [])).2 := by
  have h := writeRows_read (i * 16) T
    (if i ≥ data.length / 16 then
      data ++ List.replicate ((i + 1) * 16 - data.length) 0 else data)
    (grown_length_ge data i) y hy
  rw [← set_tile_eq_writeRows] at h
  constructor
  · rw [List.getD_eq_getElem?_getD, h.1]; rfl
  · rw [List.getD_eq_getElem?_getD, h.2]; rfl

theorem encodeRow_all3 : encodeRow (List.replicate 8 3) = (255, 255) := by decide

theorem encodeRow_all1 : encodeRow (List.replicate 8 1) = (255, 0) := by decide

/-- C1: For every byte buffer, every tile index `i ≥ 0`, and every 8×8 tile
`T` whose 64 entries are all in `[0, 3]`, writing `T` with `set_tile i T`
and then reading `get_tile i` on the resulting buffer returns exactly `T`
(lossless encode/decode round-trip). -/
theorem C1_set_get_roundtrip (data : List Nat) (i : Nat) (T : List (List Nat))
    (hT : wfTile T) : get_tile (set_tile data i T) (i : Int) = some T :=
  get_set_tile data i T hT

/-- Witness for C1 at a concrete buffer, index and tile. -/
theorem C1_set_get_roundtrip_witness :
    wfTile [[0, 1, 2, 3, 0, 1, 2, 3], [3, 2, 1, 0, 3, 2, 1, 0],
        [1, 1, 1, 1, 1, 1, 1, 1], [2, 2, 2, 2, 2, 2, 2, 2],
        [0, 0, 0, 0, 3, 3, 3, 3], [3, 3, 3, 3, 0, 0, 0, 0],
        [0, 1, 0, 1, 0, 1, 0, 1], [2, 3, 2, 3, 2, 3, 2, 3]] ∧
      get_tile
        (set_tile [9, 9, 9] 2
          [[0, 1, 2, 3, 0, 1, 2, 3], [3, 2, 1, 0, 3, 2, 1, 0],
           [1, 1, 1, 1, 1, 1, 1, 1], [2, 2, 2, 2, 2, 2, 2, 2],
           [0, 0, 0, 0, 3, 3, 3, 3], [3, 3, 3, 3, 0, 0, 0, 0],
           [0, 1, 0, 1, 0, 1, 0, 1], [2, 3, 2, 3, 2, 3, 2, 3]])
        ((2 : Nat) : Int)
        = some [[0, 1, 2, 3, 0, 1, 2, 3], [3, 2, 1, 0, 3, 2, 1, 0],
           [1, 1, 1, 1, 1, 1, 1, 1], [2, 2, 2, 2, 2, 2, 2, 2],
           [0, 0, 0, 0, 3, 3, 3, 3], [3, 3, 3, 3, 0, 0, 0, 0],
           [0, 1, 0, 1, 0, 1, 0, 1], [2, 3, 2, 3, 2, 3, 2, 3]] :=
  ⟨by decide, C1_set_get_roundtrip [9, 9, 9] 2 _ (by decide)⟩

/-- C3: For every buffer and every tile index at or beyond
`tile_count = len(buffer) / 16`, `get_tile` returns the all-zero 8×8 tile
and never fails. -/
theorem C3_out_of_range_zero (data : List Nat) (t : Int)
    (h : ((data.length / 16 : Nat) : Int) ≤ t) : get_tile data t = some zeroTile := by
  rw [get_tile, if_pos (by omega)]

/-- Witness for C3: a one-tile buffer read at index 1. -/
theorem C3_out_of_range_zero_witness :
    (((List.replicate 16 255 : List Nat).length / 16 : Nat) : Int) ≤ 1 ∧
      get_tile (List.replicate 16 255) 1 = some zeroTile :=
  ⟨by decide, C3_out_of_range_zero (List.replicate 16 255) 1 (by decide)⟩

/-- C4: Encoding the all-3 tile at any index `i` produces 16 bytes that are
all `0xFF` (both planes); encoding the all-1 tile produces low-plane bytes
all `0xFF` and high-plane bytes all `0x00`. -/
theorem C4_packing_bit_order (data : List Nat) (i : Nat) :
    (∀ k, k < 16 →
      (set_tile data i (List.replicate 8 (List.replicate 8 3))).getD (i * 16 + k) 0
        = 255) ∧
    (∀ k, k < 8 →
      (set_tile data i (List.replicate 8 (List.replicate 8 1))).getD (i * 16 + k) 0
          = 255 ∧
        (set_tile data i (List.replicate 8 (List.replicate 8 1))).getD
            (i * 16 + k + 8) 0 = 0) := by
  constructor
  · intro k hk
    rcases Nat.lt_or_ge k 8 with hk8 | hk8
    · have h := (set_tile_read data i (List.replicate 8 (List.replicate 8 3)) k hk8).1
      rw [getD_replicate_lt k hk8, encodeRow_all3] at h
      exact h
    · have hy : k - 8 < 8 := by omega
      have h := (set_tile_read data i (List.replicate 8 (List.replicate 8 3))
        (k - 8) hy).2
      rw [getD_replicate_lt (k - 8) hy, encodeRow_all3] at h
      rw [show i * 16 + k = i * 16 + (k - 8) + 8 by omega]
      exact h
  · intro k hk
    have h := set_tile_read data i (List.replicate 8 (List.replicate 8 1)) k hk
    rw [getD_replicate_lt k hk, encodeRow_all1] at h
    exact h

/-- Witness for C4 at a concrete buffer, index and byte position. -/
theorem C4_packing_bit_order_witness :
    (0 : Nat) < 16 ∧ (0 : Nat) < 8 ∧
      (set_tile [] 0 (List.replicate 8 (List.replicate 8 3))).getD 0 0 = 255 ∧
      (set_tile [] 0 (List.replicate 8 (List.replicate 8 1))).getD 0 0 = 255 ∧
      (set_tile [] 0 (List.replicate 8 (List.replicate 8 1))).getD 8 0 = 0 :=
  ⟨by decide, by decide,
    (C4_packing_bit_order [] 0).1 0 (by decide),
    ((C4_packing_bit_order [] 0).2 0 (by decide)).1,
    ((C4_packing_bit_order [] 0).2 0 (by decide)).2⟩

/-- C10: The decode bounds check is one-sided: a negative `tile_index`
with `-tile_count ≤ tile_index < 0` is not sent to the all-zero fallback;
instead the window starting `16 * |tile_index|` bytes before the end of the
buffer is decoded (Python negative indexing). -/
theorem C10_negative_index_decode (data : List Nat) (i : Int)
    (_hcount : 1 ≤ data.length / 16)
    (hlo : -((data.length / 16 : Nat) : Int) ≤ i) (hhi : i < 0) :
    get_tile data i
      = some (decodeAt data (((data.length : Int) + 16 * i).toNat)) :=
  get_tile_neg data i hhi hlo

/-- Witness for C10: `get_tile (-1)` on a 16-byte buffer decodes its final
16 bytes (offset 0 here), not the zero fallback of the out-of-range path. -/
theorem C10_negative_index_decode_witness :
    1 ≤ (List.replicate 8 (0 : Nat) ++ List.replicate 8 255).length / 16 ∧
      get_tile (List.replicate 8 (0 : Nat) ++ List.replicate 8 255) (-1)
        = some (decodeAt (List.replicate 8 (0 : Nat) ++ List.replicate 8 255)
            ((((List.replicate 8 (0 : Nat) ++ List.replicate 8 255).length : Int)
              + 16 * (-1)).toNat)) :=
  ⟨by decide,
    C10_negative_index_decode (List.replicate 8 (0 : Nat) ++ List.replicate 8 255)
      (-1) (by decide) (by decide) (by decide)⟩

/-- C2 counterexample: the buffer `[255]` holds `M = 0` complete tiles, and
writing tile `N = 1` grows it, but tile `0` of the result decodes its
leftover byte `255`, not all zeros as the claim states for tiles in
`[M, N)`. -/
theorem C2_growth_counterexample :
    ([255] : List Nat).length / 16 = 0 ∧ (0 : Nat) < 0 + 1 ∧ 0 + 1 ≤ (1 : Nat) ∧
      get_tile (set_tile [255] 1 zeroTile) ((0 : Nat) : Int) ≠ some zeroTile := by
  exact ⟨by decide, by decide, by decide, by decide⟩

/-- C2 (amended): growth-on-write as claimed, for buffers whose length is
exactly `16 * M` (a whole number of tiles): writing tile `N ≥ M` grows the
buffer to exactly `16 * (N + 1)` bytes, keeps the original bytes as a
prefix, leaves tiles `[0, M)` decoding unchanged, makes tiles `[M, N)`
decode to all zeros, and makes tile `N` decode to `T`. -/
theorem C2_growth_on_write (data : List Nat) (M N : Nat) (T : List (List Nat))
    (hM : data.length = 16 * M) (hMN : M ≤ N) (hT : wfTile T) :
    (set_tile data N T).length = 16 * (N + 1) ∧
    (set_tile data N T).take data.length = data ∧
    (∀ j : Nat, j < M →
      get_tile (set_tile data N T) (j : Int) = get_tile data (j : Int)) ∧
    (∀ j : Nat, M ≤ j → j < N →
      get_tile (set_tile data N T) (j : Int) = some zeroTile) ∧
    get_tile (set_tile data N T) (N : Int) = some T :=
  set_tile_grow data M N T hM hMN hT

/-- Witness for C2 (amended) at a concrete one-tile buffer grown to three
tiles. -/
theorem C2_growth_on_write_witness :
    (List.replicate 16 (7 : Nat)).length = 16 * 1 ∧ (1 : Nat) ≤ 2 ∧
      wfTile (List.replicate 8 (List.replicate 8 3)) ∧
      ((set_tile (List.replicate 16 7) 2 (List.replicate 8 (List.replicate 8 3))).length
          = 16 * (2 + 1) ∧
        (set_tile (List.replicate 16 7) 2
            (List.replicate 8 (List.replicate 8 3))).take
            (List.replicate 16 (7 : Nat)).length = List.replicate 16 7 ∧
        (∀ j : Nat, j < 1 →
          get_tile (set_tile (List.replicate 16 7) 2
              (List.replicate 8 (List.replicate 8 3))) (j : Int)
            = get_tile (List.replicate 16 7) (j : Int)) ∧
        (∀ j : Nat, 1 ≤ j → j < 2 →
          get_tile (set_tile (List.replicate 16 7) 2
              (List.replicate 8 (List.replicate 8 3))) (j : Int) = some zeroTile) ∧
        get_tile (set_tile (List.replicate 16 7) 2
            (List.replicate 8 (List.replicate 8 3))) ((2 : Nat) : Int)
          = some (List.replicate 8 (List.replicate 8 3))) :=
  ⟨by decide, by decide, by decide,
    C2_growth_on_write (List.replicate 16 7) 1 2
      (List.replicate 8 (List.replicate 8 3)) (by decide) (by decide) (by decide)⟩

theorem range_mul_flatMap {α : Type _} (n m : Nat) (f : Nat → List α) :
    (List.range (n * m)).flatMap f
      = (List.range n).flatMap fun a =>
          (List.range m).flatMap fun b => f (a * m + b) := by
  induction n with
  | zero => simp
  | succ n ih =>
    rw [show (n + 1) * m = n * m + m by ring, List.range_add, List.flatMap_append,
      ih, List.flatMap_map, List.range_succ, List.flatMap_append]
    simp

theorem range_mul_flatMap_div {α : Type _} (n m : Nat) (hm : 0 < m)
    (f : Nat → List α) :
    (List.range (n * m)).flatMap (fun p => f (p / m))
      = (List.range n).flatMap fun a => (List.range m).flatMap fun _ => f a := by
  rw [range_mul_flatMap]
  apply List.flatMap_congr
  intro a _
  apply List.flatMap_congr
  intro b hb
  have hb' : b < m := List.mem_range.mp hb
  rw [show a * m + b = m * a + b by ring, Nat.mul_add_div hm,
    Nat.div_eq_of_lt hb', Nat.add_zero]

theorem flatMap_const_flatten {α : Type _} (n : Nat) (L : List α) :
    (List.range n).flatMap (fun _ => L) = (List.replicate n L).flatten := by
  induction n with
  | zero => rfl
  | succ n ih =>
    rw [List.range_succ_eq_map, List.flatMap_cons, List.flatMap_map]
    rw [show (List.range n).flatMap (fun a => L) = (List.replicate n L).flatten from ih,
      List.replicate_succ, List.flatten_cons]

theorem flatten_replicate_mul {α : Type _} (a b : Nat) (L : List α) :
    (List.replicate a ((List.replicate b L).flatten)).flatten
      = (List.replicate (a * b) L).flatten := by
  induction a with
  | zero => simp
  | succ a ih =>
    rw [List.replicate_succ, List.flatten_cons, ih,
      show (a + 1) * b = b + a * b by ring, List.replicate_add,
      List.flatten_append]

theorem length_flatten_replicate {α : Type _} (n : Nat) (L : List α) :
    ((List.replicate n L).flatten).length = n * L.length := by
  induction n with
  | zero => simp
  | succ n ih =>
    rw [List.replicate_succ, List.flatten_cons, List.length_append, ih]
    ring

/-- The nested render loops, re-indexed to the positional form of the spec:
both sides produce the same RGB byte list. -/
theorem render_loops_eq_spec (tile : List (List Nat)) (scale : Nat)
    (hs : 0 < scale) (palette : List (Nat × Nat × Nat)) :
    renderSpecPixels tile scale palette
      = (List.range 8).flatMap fun y =>
          (List.range scale).flatMap fun _ =>
            (List.range 8).flatMap fun x =>
              (List.range scale).flatMap fun _ =>
                colorBytes (pixelColor tile palette y x) := by
  have houter := range_mul_flatMap_div 8 scale hs
    (fun y => (List.range (8 * scale)).flatMap
      fun cx => colorBytes (pixelColor tile palette y (cx / scale)))
  rw [renderSpecPixels]
  rw [houter]
  apply List.flatMap_congr
  intro y _
  apply List.flatMap_congr
  intro _ _
  exact range_mul_flatMap_div 8 scale hs
    (fun x => colorBytes (pixelColor tile palette y x))

theorem get_tile_some (data : List Nat) (i : Int) (hi : 0 ≤ i) :
    ∃ t, get_tile data i = some t := by
  lift i to ℕ using hi with j
  rcases Nat.lt_or_ge j (data.length / 16) with h | h
  · exact ⟨_, get_tile_eq_decodeAt data j h⟩
  · refine ⟨zeroTile, ?_⟩
    rw [get_tile, if_pos (by exact_mod_cast h)]

/-- C9: For every buffer, every nonnegative tile index, every `scale ≥ 1`
and every single-color palette `[c]`, rendering never fails and the output
is the `(8·scale)²`-fold repetition of `c`'s RGB bytes (with the expected
RGB24 length); and for every non-empty palette rendering never fails and
each output pixel is `palette[color_index mod len(palette)]` for its tile
pixel, as described positionally by `renderSpecPixels`. -/
theorem C9_render_palette_wrap (data : List Nat) (i : Int) (hi : 0 ≤ i)
    (scale : Nat) (hs : 1 ≤ scale) :
    (∀ c : Nat × Nat × Nat,
      render_tile_pixels data i scale [c]
          = some ((List.replicate ((8 * scale) * (8 * scale)) (colorBytes c)).flatten)
        ∧ ((List.replicate ((8 * scale) * (8 * scale)) (colorBytes c)).flatten).length
          = (8 * scale) * (8 * scale) * 3) ∧
    (∀ palette : List (Nat × Nat × Nat), palette ≠ [] →
      ∃ t, get_tile data i = some t ∧
        render_tile_pixels data i scale palette
          = some (renderSpecPixels t scale palette)) := by
  obtain ⟨t, ht⟩ := get_tile_some data i hi
  constructor
  · intro c
    constructor
    · rw [render_tile_pixels, ht, Option.some_bind, if_neg (by simp)]
      have hc : ∀ y x, pixelColor t [c] y x = c := by
        intro y x
        rw [pixelColor]
        simp [Nat.mod_one]
      simp only [hc, flatMap_const_flatten, flatten_replicate_mul]
      rw [show 8 * (scale * (8 * scale)) = (8 * scale) * (8 * scale) by ring]
    · rw [length_flatten_replicate]
      rfl
  · intro palette hpal
    refine ⟨t, ht, ?_⟩
    rw [render_tile_pixels, ht, Option.some_bind,
      if_neg (by simpa using hpal)]
    exact congrArg some (render_loops_eq_spec t scale hs palette).symm

/-- Witness for C9 at the empty buffer, tile 0, scale 1. -/
theorem C9_render_palette_wrap_witness :
    (∀ c : Nat × Nat × Nat,
      render_tile_pixels [] 0 1 [c]
          = some ((List.replicate ((8 * 1) * (8 * 1)) (colorBytes c)).flatten)
        ∧ ((List.replicate ((8 * 1) * (8 * 1)) (colorBytes c)).flatten).length
          = (8 * 1) * (8 * 1) * 3) ∧
    (∀ palette : List (Nat × Nat × Nat), palette ≠ [] →
      ∃ t, get_tile [] 0 = some t ∧
        render_tile_pixels [] 0 1 palette = some (renderSpecPixels t 1 palette)) :=
  C9_render_palette_wrap [] 0 (by decide) 1 (by decide)

end Chrplunk

namespace NesRom

example : parse [] = .error .truncatedHeader := by decide

example : parse (List.replicate 16 0) = .error .badMagic := by decide

example : parse [78, 69, 83, 26, 0, 0, 0, 0, 0, 0, 0, 0, 0, 0, 0, 0]
    = .ok { header := [78, 69, 83, 26, 0, 0, 0, 0, 0, 0, 0, 0, 0, 0, 0, 0],
            prg_rom_size := 0, chr_rom_size := 0, has_trainer := false,
            chr_rom_banks := [] } := by decide

/-- C7: any byte stream shorter than 16 bytes fails header validation. -/
theorem C7_truncated_header (input : List Nat) (h : input.length < 16) :
    parse input = .error .truncatedHeader := by
  simp only [parse]
  rw [if_pos (show (input.take 16).length < 16 by rw [List.length_take]; omega)]

/-- Witness for C7 at a concrete 3-byte stream. -/
theorem C7_truncated_header_witness :
    ([1, 2, 3] : List Nat).length < 16 ∧
      parse [1, 2, 3] = .error .truncatedHeader :=
  ⟨by decide, C7_truncated_header [1, 2, 3] (by decide)⟩

/-- C8: a stream of at least 16 bytes whose first 4 bytes are not the iNES
magic fails with the bad-magic error. -/
theorem C8_bad_magic (input : List Nat) (hlen : 16 ≤ input.length)
    (hmag : input.take 4 ≠ INES_MAGIC) :
    parse input = .error .badMagic := by
  simp only [parse]
  rw [if_neg (show ¬ (input.take 16).length < 16 by rw [List.length_take]; omega),
    if_pos (show (input.take 16).take 4 ≠ INES_MAGIC by
      rw [List.take_take]
      simpa using hmag)]

/-- Witness for C8 at a concrete all-zero 16-byte stream. -/
theorem C8_bad_magic_witness :
    16 ≤ (List.replicate 16 (0 : Nat)).length ∧
      (List.replicate 16 (0 : Nat)).take 4 ≠ INES_MAGIC ∧
      parse (List.replicate 16 0) = .error .badMagic :=
  ⟨by decide, by decide, C8_bad_magic (List.replicate 16 0) (by decide) (by decide)⟩

/-- C6: `get_chr_bank` is strict: every negative index and every index at or
beyond the bank count yields the invalid-index error (never a fallback
value); in particular index 0 on a zero-bank (CHR-RAM) ROM fails. -/
theorem C6_get_bank_strict (rom : NESRom) :
    (∀ idx : Int, idx < 0 ∨ (rom.get_chr_bank_count : Int) ≤ idx →
      rom.get_chr_bank idx = .error (.invalidBankIndex idx)) ∧
    (rom.get_chr_bank_count = 0 →
      rom.get_chr_bank 0 = .error (.invalidBankIndex 0)) := by
  constructor
  · intro idx h
    rw [NESRom.get_chr_bank, if_pos]
    rcases h with h | h
    · exact Or.inl h
    · exact Or.inr h
  · intro h0
    rw [NESRom.get_chr_bank, if_pos (Or.inr (by rw [h0]; exact le_refl 0))]

/-- Witness for C6 on a concrete bank-less ROM at indices `-1` and `0`. -/
theorem C6_get_bank_strict_witness :
    ((-1 : Int) < 0 ∨ (NESRom.get_chr_bank_count
        { header := [], prg_rom_size := 0, chr_rom_size := 0,
          has_trainer := false, chr_rom_banks := [] } : Int) ≤ -1) ∧
      NESRom.get_chr_bank
        { header := [], prg_rom_size := 0, chr_rom_size := 0,
          has_trainer := false, chr_rom_banks := [] } (-1)
        = .error (.invalidBankIndex (-1)) ∧
      NESRom.get_chr_bank_count
        { header := [], prg_rom_size := 0, chr_rom_size := 0,
          has_trainer := false, chr_rom_banks := [] } = 0 ∧
      NESRom.get_chr_bank
        { header := [], prg_rom_size := 0, chr_rom_size := 0,
          has_trainer := false, chr_rom_banks := [] } 0
        = .error (.invalidBankIndex 0) :=
  ⟨by decide,
    (C6_get_bank_strict _).1 (-1) (by decide),
    by decide,
    (C6_get_bank_strict _).2 (by decide)⟩

/-- C5: a well-formed headered stream declaring 1 PRG bank and 2 CHR banks
with no trainer, followed by exactly 16384 PRG bytes and 16384 CHR bytes,
parses successfully into two 8192-byte banks cut in order from the CHR
region, with mapper and mirroring read from the header flag bytes. -/
theorem C5_parse_happy_path (hdr prg chr : List Nat)
    (hh : hdr.length = 16) (hp : prg.length = 16384) (hc : chr.length = 16384)
    (hmagic : hdr.take 4 = INES_MAGIC)
    (h4 : hdr.getD 4 0 = 1) (h5 : hdr.getD 5 0 = 2)
    (h6 : hdr.getD 6 0 &&& 0x04 = 0) :
    ∃ rom : NESRom,
      parse (hdr ++ (prg ++ chr)) = .ok rom ∧
      rom.get_chr_bank_count = 2 ∧
      rom.chr_rom_banks = [chr.take 8192, chr.drop 8192] ∧
      (∀ b ∈ rom.chr_rom_banks, b.length = 8192) ∧
      rom.get_rom_info.mapper = (hdr.getD 6 0 >>> 4) ||| (hdr.getD 7 0 &&& 0xF0) ∧
      (rom.get_rom_info.mirroring = "Vertical" ↔ hdr.getD 6 0 &&& 0x01 ≠ 0) := by
  have hheader : (hdr ++ (prg ++ chr)).take 16 = hdr := List.take_left' hh
  have hafter : (hdr ++ (prg ++ chr)).drop 16 = prg ++ chr := List.drop_left' hh
  have hprg : (prg ++ chr).take 16384 = prg := List.take_left' hp
  have hafterPrg : (prg ++ chr).drop 16384 = chr := List.drop_left' hp
  have hchr : chr.take 16384 = chr := List.take_of_length_le (by omega)
  have hbanks : (List.range 2).map (fun i => (chr.drop (i * 8192)).take 8192)
      = [chr.take 8192, chr.drop 8192] := by
    rw [show List.range 2 = [0, 1] from rfl]
    simp only [List.map_cons, List.map_nil]
    rw [show (0 : Nat) * 8192 = 0 from rfl, List.drop_zero,
      show (1 : Nat) * 8192 = 8192 from rfl,
      List.take_of_length_le (l := chr.drop 8192) (by rw [List.length_drop]; omega)]
  refine ⟨{ header := hdr, prg_rom_size := 1 * 16384, chr_rom_size := 2 * 8192,
            has_trainer := decide (hdr.getD 6 0 &&& 0x04 ≠ 0),
            chr_rom_banks := [chr.take 8192, chr.drop 8192] }, ?_, ?_, rfl, ?_, ?_, ?_⟩
  · simp only [parse, hheader, hafter, h4, h5, h6]
    rw [if_neg (show ¬ hdr.length < 16 by omega)]
    rw [if_neg (show ¬ (List.take 4 hdr ≠ INES_MAGIC) by simp [hmagic])]
    rw [if_neg (show ¬ ((0 : Nat) ≠ 0 ∧ (List.take 512 (prg ++ chr)).length < 512) by
      simp)]
    rw [if_neg (show ¬ ((0 : Nat) ≠ 0) by simp)]
    rw [hprg, hafterPrg, hchr]
    rw [if_neg (show ¬ prg.length < 16384 by omega)]
    rw [if_pos (show (0 : Nat) < 16384 by norm_num)]
    rw [if_neg (show ¬ chr.length < 16384 by omega)]
    rw [hbanks]
  · rfl
  · intro b hb
    simp only [List.mem_cons, List.not_mem_nil, or_false] at hb
    rcases hb with rfl | rfl
    · rw [List.length_take]; omega
    · rw [List.length_drop]; omega
  · rfl
  · by_cases hbit : hdr.getD 6 0 &&& 0x01 ≠ 0
    · simp [NESRom.get_rom_info, hbit]
    · simp [NESRom.get_rom_info, hbit]

/-- Witness for C5: a concrete 1-PRG-bank, 2-CHR-bank, vertically mirrored
ROM image. -/
theorem C5_parse_happy_path_witness :
    ∃ rom : NESRom,
      parse (([78, 69, 83, 26, 1, 2, 1, 0, 0, 0, 0, 0, 0, 0, 0, 0] : List Nat)
          ++ (List.replicate 16384 9 ++ List.replicate 16384 7)) = .ok rom ∧
      rom.get_chr_bank_count = 2 ∧
      rom.chr_rom_banks = [(List.replicate 16384 (7 : Nat)).take 8192,
        (List.replicate 16384 (7 : Nat)).drop 8192] ∧
      (∀ b ∈ rom.chr_rom_banks, b.length = 8192) ∧
      rom.get_rom_info.mapper
        = (([78, 69, 83, 26, 1, 2, 1, 0, 0, 0, 0, 0, 0, 0, 0, 0] : List Nat).getD 6 0 >>> 4)
            ||| (([78, 69, 83, 26, 1, 2, 1, 0, 0, 0, 0, 0, 0, 0, 0, 0] : List Nat).getD 7 0 &&& 0xF0) ∧
      (rom.get_rom_info.mirroring = "Vertical"
        ↔ ([78, 69, 83, 26, 1, 2, 1, 0, 0, 0, 0, 0, 0, 0, 0, 0] : List Nat).getD 6 0 &&& 0x01 ≠ 0) :=
  C5_parse_happy_path [78, 69, 83, 26, 1, 2, 1, 0, 0, 0, 0, 0, 0, 0, 0, 0] (List.replicate 16384 9) (List.replicate 16384 7)
    (by decide) (List.length_replicate 16384 9) (List.length_replicate 16384 7)
    (by decide) (by decide) (by decide) (by decide)

end NesRom
